import Mathlib

/-!
# A verification model of the Google Apps Script CommonJS module registry

This file gives a shallow embedding, in Lean, of the module
registration/resolution engine implemented in `CommonJS.js`
(`__detectModuleName__`, `__defineModule__`, `require`,
`__getCurrentModule__`) and proves properties of the embedding.

Modelling conventions:
* JS strings (unit names, stack-trace lines, error payloads) are `List Char`,
  so every operation is a computable function the kernel can evaluate.
* The three registry maps (`modules`, `moduleFactories`, `loadingModules`)
  are association lists / lists kept in insertion order, matching the
  enumeration order of JS object keys and `Set` iteration.
* JS object identity is modelled with an explicit heap: an exports object is
  a heap address (`Nat`), and "the referentially identical object" means the
  same address.  In-place mutation rewrites the heap cell at an address;
  allocation appends a new cell.
* Factories are modelled syntactically (`Factory`): a sequence of effectful
  steps (`FOp`) followed by a return behaviour (`FRet`).  This captures the
  factory behaviours seen in the repository (mutating the pre-seeded exports,
  calling `require` re-entrantly, throwing, returning a fresh object).
* `require` may re-enter itself through a factory, so the interpreter takes
  explicit fuel and is structurally recursive on it; `RequireErr.outOfFuel`
  marks fuel exhaustion and corresponds to no behaviour of the source (every
  theorem about a concrete scenario supplies enough fuel).
* The `invocations` field of the registry is ghost instrumentation counting
  how many times each factory has been invoked; the source has no such
  counter, and no operation reads it.
* `globalThis.__currentModule` is written and restored by `require` but never
  read anywhere in the repository, so it is omitted from the state.
-/

namespace GasModules

/-- Unit names (JS strings) as lists of characters. -/
abbrev Name := List Char

/-- One line of a captured stack trace. -/
abbrev Line := List Char

/-- The literal `".js"`. -/
def jsExt : Name := ['.', 'j', 's']

/-- A JS object on the heap: fields mapping names to integer values.
(Field values that are themselves object references are stored as the
address cast to `Int`, see `FOp.freqInto`.) -/
abbrev Obj := List (Name × Int)

/-- A module record `{ exports: ... }`: the `exports` field holds the heap
address of the current exports object. -/
structure Module where
  exports : Nat
deriving DecidableEq, Repr, Inhabited

/-- One step of a factory body. -/
inductive FOp where
  /-- `exports.f = v` — mutate the pre-seeded exports object in place. -/
  | setField : Name → Int → FOp
  /-- `require('name')` — re-entrant resolution, result discarded. -/
  | freq : Name → FOp
  /-- `exports.f = require('name')` — store the reference that the
  re-entrant `require` returned. -/
  | freqInto : Name → Name → FOp
  /-- `throw new Error(msg)`. -/
  | fthrow : Name → FOp
deriving DecidableEq, Repr

/-- How a factory finishes. -/
inductive FRet where
  /-- The factory returns `undefined` (falls off the end). -/
  | undef : FRet
  /-- The factory returns a fresh object literal `{ fields }`. -/
  | obj : Obj → FRet
deriving DecidableEq, Repr, Inhabited

/-- A registered module factory (`_main`). -/
structure Factory where
  ops : List FOp
  ret : FRet
deriving DecidableEq, Repr, Inhabited

/-- The whole mutable state of the module system:
`modules`, `moduleFactories` and `loadingModules` from the source, plus the
object heap and the ghost invocation counter. -/
structure Registry where
  heap : List Obj
  modules : List (Name × Module)
  moduleFactories : List (Name × Factory)
  loadingModules : List Name
  invocations : List (Name × Nat)
deriving DecidableEq, Repr

/-- Association-list lookup (JS `map[key]`). -/
def lookup {α : Type} : List (Name × α) → Name → Option α
  | [], _ => none
  | (k, v) :: rest, n => if k = n then some v else lookup rest n

/-- `Object.keys` in insertion order. -/
def keys {α : Type} (l : List (Name × α)) : List Name := l.map (·.1)

/-- JS property assignment on an object: overwrite the field if present,
append it otherwise. -/
def objSet : Obj → Name → Int → Obj
  | [], f, v => [(f, v)]
  | (k, w) :: rest, f, v =>
    if k = f then (f, v) :: rest else (k, w) :: objSet rest f v

/-- Mutate the object at heap address `a`. -/
def heapSet (h : List Obj) (a : Nat) (f : Name) (v : Int) : List Obj :=
  h.set a (objSet (h.getD a []) f v)

/-- Ghost: increment the invocation counter for a factory. -/
def bump : List (Name × Nat) → Name → List (Name × Nat)
  | [], n => [(n, 1)]
  | (k, c) :: rest, n =>
    if k = n then (k, c + 1) :: rest else (k, c) :: bump rest n

/-- `module.exports = a` for the record registered under `n`. -/
def setExports : List (Name × Module) → Name → Nat → List (Name × Module)
  | [], _, _ => []
  | (k, m) :: rest, n, a =>
    if k = n then (k, ⟨a⟩) :: rest else (k, m) :: setExports rest n a

/-- `Set.delete`: remove the (unique) occurrence of a name. -/
def eraseName : List Name → Name → List Name
  | [], _ => []
  | k :: rest, n => if k = n then rest else k :: eraseName rest n

/-! ## Name normalization and candidate keys (`require`, lines 233–255) -/

/-- The replacement `name.replace(/^\.\/?/, '')`: strip one leading `.`
together with a following `/` when there is one. -/
def stripDotSlash : Name → Name
  | '.' :: '/' :: rest => rest
  | '.' :: rest => rest
  | l => l

/-- The replacement `name.replace(/^\.\.\/?/, '')`: strip a leading `..`
together with a following `/` when there is one. -/
def stripDotDotSlash : Name → Name
  | '.' :: '.' :: '/' :: rest => rest
  | '.' :: '.' :: rest => rest
  | l => l

/-- `name.endsWith('.js')`. -/
def endsWithJs (l : Name) : Bool :=
  match l.reverse with
  | 's' :: 'j' :: '.' :: _ => true
  | _ => false

/-- The `normalize` helper inside `require`: strip a leading `./` (or lone
`.`), then a leading `../` (or lone `..`), then a trailing `.js`. -/
def normalize (name : Name) : Name :=
  let n2 := stripDotDotSlash (stripDotSlash name)
  if endsWithJs n2 then n2.take (n2.length - 3) else n2

/-- JS `String.prototype.split('/')`. -/
def splitSlash : Name → List Name
  | [] => [[]]
  | '/' :: rest => [] :: splitSlash rest
  | c :: rest =>
    match splitSlash rest with
    | s :: ss => (c :: s) :: ss
    | [] => [[c]]

/-- The ordered candidate keys `require` tries for a requested name. -/
def candidatesOf (moduleName : Name) : List Name :=
  let norm := normalize moduleName
  let base := (splitSlash norm).getLastD []
  [moduleName]
    ++ (if norm ≠ moduleName then [norm] else [])
    ++ (if ¬ endsWithJs norm then [norm ++ jsExt] else [])
    ++ (if base ≠ [] ∧ base ≠ norm then
          [base] ++ (if ¬ endsWithJs base then [base ++ jsExt] else [])
        else [])

/-! ## The resolver/loader `require` (lines 232–296) -/

/-- Errors a `require` call can surface.  The source throws `Error` objects
with message strings; here each carries its payload structurally. -/
inductive RequireErr where
  /-- `Module not found: <requested>. Tried: <candidates>. Available
  modules: <registered names>`. -/
  | moduleNotFound : Name → List Name → List Name → RequireErr
  /-- `Circular dependency detected: <name>`. -/
  | circularDependency : Name → RequireErr
  /-- An exception thrown inside a factory body, propagated unchanged. -/
  | factoryError : Name → RequireErr
  /-- Fuel exhaustion of the interpreter (no source counterpart). -/
  | outOfFuel : RequireErr
deriving DecidableEq, Repr

/-- Outcome of the candidate loop in `require`: a cached instance hit, the
first candidate with a registered factory, or nothing. -/
inductive ScanResult where
  | hitModule : Nat → ScanResult
  | hitFactory : Name → ScanResult
  | notFound : ScanResult
deriving DecidableEq, Repr

/-- The candidate loop: per candidate, first check `modules` (cache hit
returns its exports at once), then `moduleFactories` (select and stop). -/
def scan (st : Registry) : List Name → ScanResult
  | [] => .notFound
  | c :: rest =>
    match lookup st.modules c with
    | some m => .hitModule m.exports
    | none =>
      if (lookup st.moduleFactories c).isSome then .hitFactory c
      else scan st rest

/-- Lines 272–277: mark `found` as loading, allocate the pre-seeded empty
exports object, and register the module record *before* the factory runs.
Also bumps the ghost invocation counter. -/
def beginLoad (st : Registry) (found : Name) : Registry :=
  { st with
    loadingModules := found :: st.loadingModules,
    heap := st.heap ++ [[]],
    modules := st.modules ++ [(found, ⟨st.heap.length⟩)],
    invocations := bump st.invocations found }

/-- Lines 285–287: a non-undefined factory return value wholesale replaces
the record's exports (fresh allocation); `undefined` keeps the pre-seeded
object. -/
def applyRet (st : Registry) (found : Name) : FRet → Registry
  | .undef => st
  | .obj fields =>
    { st with
      heap := st.heap ++ [fields],
      modules := setExports st.modules found st.heap.length }

/-- The `finally` clause (line 294): unconditionally remove `found` from the
loading set. -/
def finishLoad (st : Registry) (found : Name) : Registry :=
  { st with loadingModules := eraseName st.loadingModules found }

/-- The exports address currently recorded for `n` (0 if absent; only used
where presence is established). -/
def exportsAddr (st : Registry) (n : Name) : Nat :=
  match lookup st.modules n with
  | some m => m.exports
  | none => 0

/-- Run a factory body against the registry.  `req` is the resolver handed
to the factory (instantiated with `requireF fuel` below); `eaddr` is the
address of the pre-seeded exports object the factory received. -/
def runOpsWith (req : Registry → Name → Except RequireErr Nat × Registry) :
    Registry → Nat → List FOp → Except RequireErr Unit × Registry
  | st, _, [] => (.ok (), st)
  | st, eaddr, op :: rest =>
    match op with
    | .setField f v =>
      runOpsWith req { st with heap := heapSet st.heap eaddr f v } eaddr rest
    | .fthrow msg => (.error (.factoryError msg), st)
    | .freq n =>
      match req st n with
      | (.ok _, st') => runOpsWith req st' eaddr rest
      | (.error e, st') => (.error e, st')
    | .freqInto n f =>
      match req st n with
      | (.ok a, st') =>
        runOpsWith req { st' with heap := heapSet st'.heap eaddr f (Int.ofNat a) }
          eaddr rest
      | (.error e, st') => (.error e, st')

/-- The loader `require` (lines 232–296), with explicit fuel bounding the
re-entrant call depth.  Returns the heap address of the exports object, or
the error thrown, together with the final registry state. -/
def requireF : Nat → Registry → Name → Except RequireErr Nat × Registry
  | 0, st, _ => (.error .outOfFuel, st)
  | fuel + 1, st, moduleName =>
    let candidates := candidatesOf moduleName
    match scan st candidates with
    | .hitModule a => (.ok a, st)
    | .notFound =>
      (.error (.moduleNotFound moduleName candidates (keys st.moduleFactories)), st)
    | .hitFactory found =>
      if found ∈ st.loadingModules then
        (.error (.circularDependency found), st)
      else
        let fac := (lookup st.moduleFactories found).getD default
        let eaddr := st.heap.length
        let st2 := beginLoad st found
        match runOpsWith (requireF fuel) st2 eaddr fac.ops with
        | (.ok _, st3) =>
          let st4 := applyRet st3 found fac.ret
          (.ok (exportsAddr st4 found), finishLoad st4 found)
        | (.error e, st3) => (.error e, finishLoad st3 found)

deriving instance DecidableEq for Except

/-! ## Stack-trace pattern matching

`__detectModuleName__` (lines 51–201) and `__getCurrentModule__`
(lines 303–359) recover a unit name by running a fixed sequence of regular
expressions over each line of a captured backtrace.  Each regex below is
translated into a deterministic character-level parser.  For these
particular regexes greedy matching needs no backtracking: every character
class excludes the delimiter that must follow it (the one exception,
`([^/\s]+)\.gs:\d+`, is handled by `gsCapture`, which prefers the longest
capture exactly as the greedy engine does). -/

/-- `[^/\s:]` — a path-segment character. -/
def isPathChar (c : Char) : Bool := !(c = '/' || c = ':' || c.isWhitespace)

/-- `[^/:()]` — note that whitespace is allowed by this class. -/
def isParenCls (c : Char) : Bool := !(c = '/' || c = ':' || c = '(' || c = ')')

/-- `[^/\s:()]`. -/
def isSimpleChar (c : Char) : Bool :=
  !(c = '/' || c = ':' || c = '(' || c = ')' || c.isWhitespace)

/-- `[^.\s]`. -/
def isNonDotWs (c : Char) : Bool := !(c = '.' || c.isWhitespace)

/-- `[^/\s]`. -/
def isNonSlashWs (c : Char) : Bool := !(c = '/' || c.isWhitespace)

/-- `\s+` at the current position: require at least one whitespace character
and skip the maximal run. -/
def afterWs1 : List Char → Option (List Char)
  | c :: rest => if c.isWhitespace then some (rest.dropWhile Char.isWhitespace) else none
  | [] => none

/-- `\d+` at the current position. -/
def afterDigits1 : List Char → Option (List Char)
  | c :: rest => if c.isDigit then some (rest.dropWhile Char.isDigit) else none
  | [] => none

/-- `:\d+` at the current position. -/
def afterColonDigits : List Char → Option (List Char)
  | ':' :: rest => afterDigits1 rest
  | _ => none

/-- The maximal prefix matching `[^/\s:]+(?:\/[^/\s:]+)*` (segments joined
by single slashes), together with the remainder.  A slash is consumed only
when a segment character follows it. -/
def pathTake : List Char → List Char × List Char
  | [] => ([], [])
  | c :: rest =>
    if isPathChar c then
      let (r, rest') := pathTake rest
      (c :: r, rest')
    else if c = '/' then
      match rest with
      | d :: _ =>
        if isPathChar d then
          let (r, rest') := pathTake rest
          ('/' :: r, rest')
        else ([], c :: rest)
      | [] => ([], c :: rest)
    else ([], c :: rest)

/-- Match `at\s+([^/\s:]+\/)?([^/\s:]+(?:\/[^/\s:]+)*):\d+:\d+` at the
current position, returning the combined path (prefix plus file part). -/
def matchAtPath : List Char → Option Name
  | 'a' :: 't' :: rest =>
    match afterWs1 rest with
    | some r1 =>
      match r1 with
      | c :: _ =>
        if isPathChar c then
          let (path, r2) := pathTake r1
          match afterColonDigits r2 with
          | some r3 =>
            match afterColonDigits r3 with
            | some _ => some path
            | none => none
          | none => none
        else none
      | [] => none
    | none => none
  | _ => none

/-- Match `at\s+([^/\s:]+(?:\/[^/\s:]+)+):\d+:\d+` at the current position:
like `matchAtPath` but the path must contain at least one slash. -/
def matchAtPathSlash (l : List Char) : Option Name :=
  match matchAtPath l with
  | some path => if path.contains '/' then some path else none
  | none => none

/-- Match `\(([^/:()]+):\d+:\d+\)` at the current position. -/
def matchParen : List Char → Option Name
  | '(' :: rest =>
    let cap := rest.takeWhile isParenCls
    if cap = [] then none
    else
      match afterColonDigits (rest.dropWhile isParenCls) with
      | some r1 =>
        match afterColonDigits r1 with
        | some (')' :: _) => some cap
        | _ => none
      | none => none
  | _ => none

/-- Match `at\s+[^(]*\(([^/:()]+):\d+:\d+\)` at the current position: after
`at` and whitespace, skip to the first `(` and match the parenthesised
location there. -/
def matchAtParen : List Char → Option Name
  | 'a' :: 't' :: rest =>
    match afterWs1 rest with
    | some r1 => matchParen (r1.dropWhile (fun c => !(c = '(')))
    | none => none
  | _ => none

/-- Inside a run of `[^/\s]` characters, the longest nonempty prefix that is
followed by `.gs:` and a digit (the greedy capture of
`([^/\s]+)\.gs:\d+`). -/
def gsCapture : List Char → Option Name
  | [] => none
  | c :: rest =>
    match gsCapture rest with
    | some cap => some (c :: cap)
    | none =>
      match rest with
      | '.' :: 'g' :: 's' :: ':' :: d :: _ => if d.isDigit then some [c] else none
      | _ => none

/-- Match `([^/\s]+)\.gs:\d+` at the current position. -/
def matchGs (l : List Char) : Option Name :=
  match l with
  | c :: _ => if isNonSlashWs c then gsCapture (l.takeWhile isNonSlashWs) else none
  | [] => none

/-- Match `at\s+([^.\s]+)\.` at the current position. -/
def matchAtDot : List Char → Option Name
  | 'a' :: 't' :: rest =>
    match afterWs1 rest with
    | some r1 =>
      let cap := r1.takeWhile isNonDotWs
      if cap = [] then none
      else
        match r1.dropWhile isNonDotWs with
        | '.' :: _ => some cap
        | _ => none
    | none => none
  | _ => none

/-- Match `at\s+([^/\s:]+):\d+:\d+` at the current position. -/
def matchAtSimple : List Char → Option Name
  | 'a' :: 't' :: rest =>
    match afterWs1 rest with
    | some r1 =>
      let cap := r1.takeWhile isPathChar
      if cap = [] then none
      else
        match afterColonDigits (r1.dropWhile isPathChar) with
        | some r2 =>
          match afterColonDigits r2 with
          | some _ => some cap
          | none => none
        | none => none
    | none => none
  | _ => none

/-- Match `at\s+([^/\s:()]+):\d+:\d+` at the current position (the third
pattern of `__getCurrentModule__`, whose class also excludes parens). -/
def matchAtSimpleParen : List Char → Option Name
  | 'a' :: 't' :: rest =>
    match afterWs1 rest with
    | some r1 =>
      let cap := r1.takeWhile isSimpleChar
      if cap = [] then none
      else
        match afterColonDigits (r1.dropWhile isSimpleChar) with
        | some r2 =>
          match afterColonDigits r2 with
          | some _ => some cap
          | none => none
        | none => none
    | none => none
  | _ => none

/-- Match the anchored `^\s*([^/\s:()]+):\d+:\d+` against a whole line. -/
def matchAnchoredSimple (l : List Char) : Option Name :=
  let r0 := l.dropWhile Char.isWhitespace
  let cap := r0.takeWhile isSimpleChar
  if cap = [] then none
  else
    match afterColonDigits (r0.dropWhile isSimpleChar) with
    | some r2 =>
      match afterColonDigits r2 with
      | some _ => some cap
      | none => none
    | none => none

/-- Unanchored search: the leftmost position where the matcher succeeds
(JS `String.prototype.match` with a non-anchored regex). -/
def searchPos (m : List Char → Option Name) : List Char → Option Name
  | [] => m []
  | c :: rest =>
    match m (c :: rest) with
    | some n => some n
    | none => searchPos m rest

/-- The usability filter applied to every candidate name: truthy (nonempty),
not `eval`, not `anonymous`, not starting with `__`, not `CommonJS`. -/
def usable (n : Name) : Bool :=
  !(n = []) && !(n = "eval".data) && !(n = "anonymous".data) &&
    !(List.isPrefixOf "__".data n) && !(n = "CommonJS".data)

/-- Apply one unanchored pattern to a line: take the first match and keep it
only if it passes the usability filter (a rejected match falls through to
the next pattern, not to a later occurrence). -/
def tryPattern (m : List Char → Option Name) (line : List Char) : Option Name :=
  match searchPos m line with
  | some n => if usable n then some n else none
  | none => none

/-! ## `__detectModuleName__` (lines 51–201) -/

/-- Substring test (JS `String.prototype.includes`). -/
def containsSub (l pat : List Char) : Bool :=
  match l with
  | [] => List.isPrefixOf pat []
  | _ :: rest => List.isPrefixOf pat l || containsSub rest pat

/-- JS `String.prototype.trim` (ASCII whitespace). -/
def trim (l : List Char) : List Char :=
  ((l.dropWhile Char.isWhitespace).reverse.dropWhile Char.isWhitespace).reverse

/-- A frame line the detector skips: blank after trimming, or mentioning the
detector or registrar themselves. -/
def lineSkipped (l : Line) : Bool :=
  trim l = [] || containsSub (trim l) "__detectModuleName__".data ||
    containsSub (trim l) "__defineModule__".data

/-- The eight patterns of `__detectModuleName__`, tried in source order
against one (trimmed) line; each filtered by `usable`. -/
def tryLine (t : List Char) : Option Name :=
  match tryPattern matchAtPath t with
  | some n => some n
  | none =>
  match tryPattern matchAtPathSlash t with
  | some n => some n
  | none =>
  match tryPattern matchParen t with
  | some n => some n
  | none =>
  match tryPattern matchAtParen t with
  | some n => some n
  | none =>
  match tryPattern matchGs t with
  | some n => some n
  | none =>
  match tryPattern matchAtDot t with
  | some n => some n
  | none =>
  match tryPattern matchAtSimple t with
  | some n => some n
  | none =>
  match matchAnchoredSimple t with
  | some n => if usable n then some n else none
  | none => none

/-- The detection loop over the backtrace lines. -/
def detectLoop : List Line → Option Name
  | [] => none
  | l :: rest =>
    if lineSkipped l then detectLoop rest
    else
      match tryLine (trim l) with
      | some n => some n
      | none => detectLoop rest

/-- The failure thrown at line 199; the `debugInfo` payload is built from
the raw stack trace, carried here structurally. -/
structure DetectError where
  stackTrace : List Line
deriving DecidableEq, Repr

/-- `__detectModuleName__`: walk the backtrace, skip internal frames, accept
the first pattern yielding a usable name; otherwise throw, carrying the raw
backtrace. -/
def __detectModuleName__ (stack : List Line) : Except DetectError Name :=
  match detectLoop stack with
  | some n => .ok n
  | none => .error ⟨stack⟩

/-! ## `__defineModule__` (lines 213–225) -/

/-- `explicitName || __detectModuleName__()` — an empty explicit name is
falsy in JS and falls through to detection. -/
def resolveDefineName (stack : List Line) : Option Name → Except DetectError Name
  | some n => if n = [] then __detectModuleName__ stack else .ok n
  | none => __detectModuleName__ stack

/-- `__defineModule__`: resolve the name, then register the factory unless
the name is already registered, in which case warn and skip (the map is
left untouched). -/
def __defineModule__ (stack : List Line) (st : Registry) (moduleFactory : Factory)
    (explicitName : Option Name) : Except DetectError Registry :=
  match resolveDefineName stack explicitName with
  | .error e => .error e
  | .ok moduleName =>
    if (lookup st.moduleFactories moduleName).isSome then
      .ok st
    else
      .ok { st with moduleFactories := st.moduleFactories ++ [(moduleName, moduleFactory)] }

/-! ## `__getCurrentModule__` (lines 303–359)

The source resolves a name from the backtrace with three patterns (no
trimming, no internal-frame skipping) and then evaluates
`modules[name] || __createModule__(name)`.  `__createModule__` is defined
nowhere in the repository, so whenever the record is absent — including the
final `__createModule__('unknown')` fallback — the call throws
`ReferenceError: __createModule__ is not defined`. -/

/-- The unresolved global `__createModule__(attempted)`: evaluating it
throws a `ReferenceError` naming the undefined function; `attempted`
records the argument of the failed call. -/
structure RefError where
  attempted : Name
deriving DecidableEq, Repr

/-- The three patterns of `__getCurrentModule__` against one raw line. -/
def gcmLine (line : Line) : Option Name :=
  match tryPattern matchAtPathSlash line with
  | some n => some n
  | none =>
  match tryPattern matchAtPath line with
  | some n => some n
  | none => tryPattern matchAtSimpleParen line

/-- First usable name over the backtrace lines. -/
def gcmLoop : List Line → Option Name
  | [] => none
  | l :: rest =>
    match gcmLine l with
    | some n => some n
    | none => gcmLoop rest

/-- `__getCurrentModule__`: return the registered record for the recovered
name; on a miss (or when no line yields a name) the source calls the
undefined `__createModule__`, modelled as the `ReferenceError` it raises. -/
def __getCurrentModule__ (st : Registry) (stack : List Line) : Except RefError Module :=
  match gcmLoop stack with
  | some n =>
    match lookup st.modules n with
    | some m => .ok m
    | none => .error ⟨n⟩
  | none => .error ⟨"unknown".data⟩

/-! ## Invariant definitions used by the theorems -/

def Preserves (req : Registry → Name → Except RequireErr Nat × Registry) : Prop :=
  ∀ st n,
    ((req st n).2).moduleFactories = st.moduleFactories ∧
    ((req st n).2).loadingModules = st.loadingModules ∧
    st.heap.length ≤ ((req st n).2).heap.length ∧
    (∀ k m, lookup st.modules k = some m → lookup ((req st n).2).modules k = some m) ∧
    (∀ k, lookup st.modules k = none → (lookup ((req st n).2).modules k).isSome →
      (lookup st.moduleFactories k).isSome)

def LoadInv (st : Registry) : Prop :=
  ∀ k, k ∈ st.loadingModules → (lookup st.modules k).isSome

/-! ## Error message strings

The source interpolates its `Error` messages from the structured data; the
builders below mirror the template literals at lines 266 and 270. -/

/-- JS `Array.prototype.join(', ')`. -/
def joinComma : List Name → Name
  | [] => []
  | [x] => x
  | x :: rest => x ++ [',', ' '] ++ joinComma rest

/-- The message string of each thrown error, as interpolated by the
source. -/
def requireErrMessage : RequireErr → Name
  | .moduleNotFound r t avail =>
    "Module not found: ".data ++ r ++ ". Tried: ".data ++ joinComma t ++
      ". Available modules: ".data ++ joinComma avail
  | .circularDependency n => "Circular dependency detected: ".data ++ n
  | .factoryError m => m
  | .outOfFuel => []

/-! ## Concrete scenarios used by the theorems -/

/-- Process start: nothing registered, nothing loaded. -/
def emptyRegistry : Registry := ⟨[], [], [], [], []⟩

/-- A unit `group/util` whose factory returns `{v: 7}`. -/
def groupReg : Registry :=
  ⟨[], [], [("group/util".data, ⟨[], .obj [("v".data, 7)]⟩)], [], []⟩

/-- `groupReg` after a successful `require('./group/util.js')`. -/
def groupLoaded : Registry := (requireF 3 groupReg "./group/util.js".data).2

/-- The two-unit cycle: `A`'s factory requires `B` (storing what it gets)
and then replaces its exports; `B`'s factory requires `A` back while `A` is
still loading, and stores the reference it received. -/
def cycleReg : Registry :=
  ⟨[], [],
    [("A".data, ⟨[.freqInto "B".data "gotB".data], .obj [("final".data, 9)]⟩),
     ("B".data, ⟨[.freqInto "A".data "gotA".data], .undef⟩)], [], []⟩

/-- A unit `calculator` whose factory returns a fresh object. -/
def calcReg : Registry :=
  ⟨[], [], [("calculator".data, ⟨[], .obj [("add".data, 1)]⟩)], [], []⟩

/-- `calcReg` after a successful `require('calculator')`. -/
def calcLoaded : Registry := (requireF 2 calcReg "calculator".data).2

/-- A unit whose factory first populates one field of the pre-seeded
exports and then throws. -/
def boomReg : Registry :=
  ⟨[], [],
    [("boom".data, ⟨[.setField "half".data 1, .fthrow "kaboom".data], .undef⟩)],
    [], []⟩

/-- `boomReg` after the failed `require('boom')`. -/
def boomFailed : Registry := (requireF 2 boomReg "boom".data).2

/-- A factory using replacement semantics (returns `{x: 5}`). -/
def replReg : Registry := ⟨[], [], [("r".data, ⟨[], .obj [("x".data, 5)]⟩)], [], []⟩

/-- A factory using in-place mutation (sets `exports.y = 3`, returns
`undefined`). -/
def mutReg : Registry := ⟨[], [], [("m".data, ⟨[.setField "y".data 3], .undef⟩)], [], []⟩

/-- The state of `replReg` right after `beginLoad` (its factory body is
empty, so this is also the state in which the factory returns). -/
def replMid : Registry := beginLoad replReg "r".data

/-- The state of `mutReg` after `beginLoad` and the factory body's
`exports.y = 3`. -/
def mutMid : Registry :=
  (runOpsWith (requireF 0) (beginLoad mutReg "m".data) 0 [.setField "y".data 3]).2

/-- A unit `A` whose factory requires the unregistered `Z`. -/
def nestReg : Registry := ⟨[], [], [("A".data, ⟨[.freq "Z".data], .undef⟩)], [], []⟩

/-- An artificial state with `A` marked loading but never instantiated,
exercising the `CircularDependency` throw site directly. -/
def loadingStuck : Registry := ⟨[], [], [("A".data, default)], ["A".data], []⟩

/-- A registry holding an instance record for `calculator`. -/
def calcCtxReg : Registry := ⟨[[]], [("calculator".data, ⟨0⟩)], [], [], []⟩

/-! ## Basic lemmas about the registry primitives -/

theorem lookup_append_some {α : Type} {l : List (Name × α)} {k : Name} {v : α}
    (h : lookup l k = some v) (l' : List (Name × α)) :
    lookup (l ++ l') k = some v := by
  induction l with
  | nil => simp [lookup] at h
  | cons e rest ih =>
    obtain ⟨k', v'⟩ := e
    by_cases hk : k' = k
    · simp [lookup, hk] at h ⊢; exact h
    · simp [lookup, hk] at h ⊢; exact ih h

theorem lookup_append_none {α : Type} {l : List (Name × α)} {k : Name}
    (h : lookup l k = none) (l' : List (Name × α)) :
    lookup (l ++ l') k = lookup l' k := by
  induction l with
  | nil => simp
  | cons e rest ih =>
    obtain ⟨k', v'⟩ := e
    by_cases hk : k' = k
    · simp [lookup, hk] at h
    · simp [lookup, hk] at h ⊢; exact ih h

theorem lookup_append_isSome {α : Type} {l : List (Name × α)} {k f : Name} {m : α}
    (h : (lookup (l ++ [(f, m)]) k).isSome) :
    (lookup l k).isSome ∨ k = f := by
  induction l with
  | nil =>
    simp only [List.nil_append, lookup] at h
    by_cases hk : f = k
    · right; exact hk.symm
    · simp [hk, lookup] at h
  | cons e rest ih =>
    obtain ⟨k', v'⟩ := e
    by_cases hk : k' = k
    · left; simp [lookup, hk]
    · simp only [List.cons_append, lookup, hk, if_false] at h ⊢
      exact ih h

theorem lookup_setExports_ne {l : List (Name × Module)} {k n : Name} (a : Nat)
    (h : k ≠ n) : lookup (setExports l n a) k = lookup l k := by
  induction l with
  | nil => rfl
  | cons e rest ih =>
    obtain ⟨k', m'⟩ := e
    by_cases hk : k' = n
    · subst hk
      simp only [setExports, if_pos rfl]
      simp [lookup, Ne.symm h]
    · simp only [setExports, if_neg hk, lookup]
      by_cases hkk : k' = k
      · simp [hkk]
      · simp [hkk, ih]

theorem lookup_setExports_self {l : List (Name × Module)} {n : Name} (a : Nat)
    (h : (lookup l n).isSome) : lookup (setExports l n a) n = some ⟨a⟩ := by
  induction l with
  | nil => simp [lookup] at h
  | cons e rest ih =>
    obtain ⟨k', m'⟩ := e
    by_cases hk : k' = n
    · subst hk; simp [setExports, lookup]
    · simp only [lookup, hk, if_false] at h
      simp [setExports, hk, lookup, ih h]

theorem isSome_lookup_setExports {l : List (Name × Module)} {k n : Name} (a : Nat) :
    (lookup (setExports l n a) k).isSome = (lookup l k).isSome := by
  by_cases h : k = n
  · subst h
    induction l with
    | nil => rfl
    | cons e rest ih =>
      obtain ⟨k', m'⟩ := e
      by_cases hk : k' = k
      · simp [setExports, lookup, hk]
      · simp [setExports, hk, lookup, ih]
  · rw [lookup_setExports_ne a h]

theorem eraseName_cons_self (l : List Name) (n : Name) :
    eraseName (n :: l) n = l := by
  simp [eraseName]

theorem mem_eraseName {l : List Name} {k n : Name} (h : k ∈ eraseName l n) :
    k ∈ l := by
  induction l with
  | nil => simp [eraseName] at h
  | cons e rest ih =>
    by_cases he : e = n
    · simp only [eraseName, if_pos he] at h
      exact List.mem_cons_of_mem _ h
    · simp only [eraseName, if_neg he] at h
      rcases List.mem_cons.mp h with h | h
      · exact h ▸ List.mem_cons_self _ _
      · exact List.mem_cons_of_mem _ (ih h)

/-- The candidate loop selects a factory only for a candidate that has no
cached instance and does have a registered factory. -/
theorem scan_hitFactory {st : Registry} {cs : List Name} {f : Name}
    (h : scan st cs = .hitFactory f) :
    lookup st.modules f = none ∧ (lookup st.moduleFactories f).isSome := by
  induction cs with
  | nil => simp [scan] at h
  | cons c rest ih =>
    simp only [scan] at h
    cases hm : lookup st.modules c with
    | some m => simp [hm] at h
    | none =>
      simp only [hm] at h
      by_cases hf : (lookup st.moduleFactories c).isSome
      · simp only [hf, if_true, ScanResult.hitFactory.injEq] at h
        exact h ▸ ⟨hm, hf⟩
      · simp only [hf, if_false] at h
        exact ih h

/-- If a candidate list selects factory `f` in state `st`, then in any state
`st'` that keeps the same factories, preserves instance absence except for
factory-backed names, and has an instance for `f`, the same candidate list
is a cache hit on `f`. -/
theorem scan_transfer {st st' : Registry} {cs : List Name} {f : Name} {a : Nat}
    (hs : scan st cs = .hitFactory f)
    (hfac : st'.moduleFactories = st.moduleFactories)
    (hnew : ∀ k, lookup st.modules k = none → (lookup st'.modules k).isSome →
      (lookup st.moduleFactories k).isSome)
    (hm : lookup st'.modules f = some ⟨a⟩) :
    scan st' cs = .hitModule a := by
  induction cs with
  | nil => simp [scan] at hs
  | cons c rest ih =>
    simp only [scan] at hs ⊢
    cases hmc : lookup st.modules c with
    | some m => simp [hmc] at hs
    | none =>
      simp only [hmc] at hs
      by_cases hf : (lookup st.moduleFactories c).isSome
      · simp only [hf, if_true, ScanResult.hitFactory.injEq] at hs
        subst hs
        simp [hm]
      · simp only [hf, if_false] at hs
        cases hmc' : lookup st'.modules c with
        | some m' =>
          exact absurd (hnew c hmc (by simp [hmc'])) hf
        | none =>
          simp only [hmc', hfac, hf, if_false]
          exact ih hs

/-! ## Preservation properties of `require` -/

/-- The state-shape facts every (re-entrant) `require` call guarantees:
the factories map is untouched, the loading set is restored, the heap only
grows, instance records present at entry keep their recorded value, and any
newly created instance record belongs to a registered factory. -/
theorem runOpsWith_preserves {req} (hreq : Preserves req) :
    ∀ (ops : List FOp) (st : Registry) (eaddr : Nat),
      ((runOpsWith req st eaddr ops).2).moduleFactories = st.moduleFactories ∧
      ((runOpsWith req st eaddr ops).2).loadingModules = st.loadingModules ∧
      st.heap.length ≤ ((runOpsWith req st eaddr ops).2).heap.length ∧
      (∀ k m, lookup st.modules k = some m →
        lookup ((runOpsWith req st eaddr ops).2).modules k = some m) ∧
      (∀ k, lookup st.modules k = none →
        (lookup ((runOpsWith req st eaddr ops).2).modules k).isSome →
        (lookup st.moduleFactories k).isSome) := by
  intro ops
  induction ops with
  | nil =>
    intro st eaddr
    exact ⟨rfl, rfl, le_refl _, fun k m h => h, fun k h h' => by
      simp [runOpsWith] at h'; rw [h] at h'; simp at h'⟩
  | cons op rest ih =>
    intro st eaddr
    cases op with
    | setField f v =>
      have h := ih { st with heap := heapSet st.heap eaddr f v } eaddr
      simp only [runOpsWith]
      refine ⟨h.1, h.2.1, ?_, h.2.2.2.1, h.2.2.2.2⟩
      calc st.heap.length = (heapSet st.heap eaddr f v).length := by
            simp [heapSet]
        _ ≤ _ := h.2.2.1
    | fthrow msg =>
      exact ⟨rfl, rfl, le_refl _, fun k m h => h, fun k h h' => by
        simp only [runOpsWith] at h'; rw [h] at h'; simp at h'⟩
    | freq n =>
      simp only [runOpsWith]
      rcases hr : req st n with ⟨r, st'⟩
      have hp := hreq st n
      rw [hr] at hp
      cases r with
      | ok a =>
        have h := ih st' eaddr
        exact ⟨h.1.trans hp.1, h.2.1.trans hp.2.1, hp.2.2.1.trans h.2.2.1,
          fun k m hm => h.2.2.2.1 k m (hp.2.2.2.1 k m hm),
          fun k hn hs => by
            cases hmid : lookup st'.modules k with
            | some m' => exact hp.2.2.2.2 k hn (by simp [hmid])
            | none =>
              have := h.2.2.2.2 k hmid hs
              rw [hp.1] at this
              exact this⟩
      | error e =>
        exact ⟨hp.1, hp.2.1, hp.2.2.1, hp.2.2.2.1, hp.2.2.2.2⟩
    | freqInto n f =>
      simp only [runOpsWith]
      rcases hr : req st n with ⟨r, st'⟩
      have hp := hreq st n
      rw [hr] at hp
      cases r with
      | ok a =>
        have h := ih { st' with heap := heapSet st'.heap eaddr f (Int.ofNat a) } eaddr
        refine ⟨h.1.trans hp.1, h.2.1.trans hp.2.1, ?_,
          fun k m hm => h.2.2.2.1 k m (hp.2.2.2.1 k m hm),
          fun k hn hs => by
            cases hmid : lookup st'.modules k with
            | some m' => exact hp.2.2.2.2 k hn (by simp [hmid])
            | none =>
              have := h.2.2.2.2 k hmid hs
              rw [hp.1] at this
              exact this⟩
        calc st.heap.length ≤ st'.heap.length := hp.2.2.1
          _ = (heapSet st'.heap eaddr f (Int.ofNat a)).length := by simp [heapSet]
          _ ≤ _ := h.2.2.1
      | error e =>
        exact ⟨hp.1, hp.2.1, hp.2.2.1, hp.2.2.2.1, hp.2.2.2.2⟩

theorem applyRet_factories (st : Registry) (f : Name) (r : FRet) :
    (applyRet st f r).moduleFactories = st.moduleFactories := by
  cases r <;> rfl

theorem applyRet_loading (st : Registry) (f : Name) (r : FRet) :
    (applyRet st f r).loadingModules = st.loadingModules := by
  cases r <;> rfl

theorem applyRet_heap_le (st : Registry) (f : Name) (r : FRet) :
    st.heap.length ≤ (applyRet st f r).heap.length := by
  cases r <;> simp [applyRet]

theorem applyRet_lookup_ne {st : Registry} {k f : Name} (r : FRet) (h : k ≠ f) :
    lookup (applyRet st f r).modules k = lookup st.modules k := by
  cases r with
  | undef => rfl
  | obj L => simpa [applyRet] using lookup_setExports_ne st.heap.length h

theorem applyRet_isSome (st : Registry) (k f : Name) (r : FRet) :
    (lookup (applyRet st f r).modules k).isSome = (lookup st.modules k).isSome := by
  cases r with
  | undef => rfl
  | obj L => simpa [applyRet] using isSome_lookup_setExports (l := st.modules) st.heap.length

/-- Every `require` call, at any fuel, satisfies the preservation
properties. -/
theorem requireF_preserves : ∀ fuel, Preserves (requireF fuel) := by
  intro fuel
  induction fuel with
  | zero =>
    intro st n
    exact ⟨rfl, rfl, le_refl _, fun k m h => h, fun k h h' => by
      simp only [requireF] at h'; rw [h] at h'; simp at h'⟩
  | succ fuel ih =>
    intro st n
    simp only [requireF]
    cases hscan : scan st (candidatesOf n) with
    | hitModule a =>
      exact ⟨rfl, rfl, le_refl _, fun k m h => h, fun k h h' => by
        rw [h] at h'; simp at h'⟩
    | notFound =>
      exact ⟨rfl, rfl, le_refl _, fun k m h => h, fun k h h' => by
        rw [h] at h'; simp at h'⟩
    | hitFactory found =>
      by_cases hmem : found ∈ st.loadingModules
      · simp only [hmem, if_true]
        exact ⟨trivial, trivial, le_refl _, fun k m h => h, fun k h h' => by
          rw [h] at h'; simp at h'⟩
      · simp only [hmem, if_false]
        obtain ⟨hfnone, hfsome⟩ := scan_hitFactory hscan
        have hrp := runOpsWith_preserves ih
          ((lookup st.moduleFactories found).getD default).ops (beginLoad st found)
          st.heap.length
        rcases hrun : runOpsWith (requireF fuel) (beginLoad st found) st.heap.length
            ((lookup st.moduleFactories found).getD default).ops with ⟨r, st3⟩
        rw [hrun] at hrp
        have hb2 : (beginLoad st found).loadingModules = found :: st.loadingModules := rfl
        have hbf : (beginLoad st found).moduleFactories = st.moduleFactories := rfl
        have hbh : (beginLoad st found).heap.length = st.heap.length + 1 := by
          simp [beginLoad]
        cases r with
        | ok u =>
          simp only
          refine ⟨?_, ?_, ?_, ?_, ?_⟩
          · rw [show (finishLoad (applyRet st3 found
                ((lookup st.moduleFactories found).getD default).ret) found).moduleFactories
                = (applyRet st3 found
                  ((lookup st.moduleFactories found).getD default).ret).moduleFactories from rfl,
              applyRet_factories, hrp.1, hbf]
          · show eraseName (applyRet st3 found
                ((lookup st.moduleFactories found).getD default).ret).loadingModules found
              = st.loadingModules
            rw [applyRet_loading, hrp.2.1, hb2, eraseName_cons_self]
          · calc st.heap.length ≤ st.heap.length + 1 := Nat.le_succ _
              _ = (beginLoad st found).heap.length := hbh.symm
              _ ≤ st3.heap.length := hrp.2.2.1
              _ ≤ _ := applyRet_heap_le st3 found _
          · intro k m hkm
            have hkne : k ≠ found := fun he => by rw [he, hfnone] at hkm; cases hkm
            have h2 : lookup (beginLoad st found).modules k = some m := by
              show lookup (st.modules ++ [(found, ⟨st.heap.length⟩)]) k = some m
              exact lookup_append_some hkm _
            have h3 := hrp.2.2.2.1 k m h2
            show lookup (applyRet st3 found _).modules k = some m
            rw [applyRet_lookup_ne _ hkne]
            exact h3
          · intro k hknone hksome
            show (lookup st.moduleFactories k).isSome
            rw [show (finishLoad (applyRet st3 found
                ((lookup st.moduleFactories found).getD default).ret) found).modules
                = (applyRet st3 found
                  ((lookup st.moduleFactories found).getD default).ret).modules from rfl,
              applyRet_isSome] at hksome
            cases h2 : lookup (beginLoad st found).modules k with
            | some m' =>
              have h2' : (lookup (st.modules ++ [(found, ⟨st.heap.length⟩)]) k).isSome := by
                show (lookup (beginLoad st found).modules k).isSome
                simp [h2]
              rcases lookup_append_isSome h2' with hs | he
              · rw [hknone] at hs; simp at hs
              · rw [he]; exact hfsome
            | none =>
              have := hrp.2.2.2.2 k h2 hksome
              rw [hbf] at this
              exact this
        | error e =>
          simp only
          refine ⟨?_, ?_, ?_, ?_, ?_⟩
          · rw [show (finishLoad st3 found).moduleFactories = st3.moduleFactories from rfl,
              hrp.1, hbf]
          · show eraseName st3.loadingModules found = st.loadingModules
            rw [hrp.2.1, hb2, eraseName_cons_self]
          · calc st.heap.length ≤ st.heap.length + 1 := Nat.le_succ _
              _ = (beginLoad st found).heap.length := hbh.symm
              _ ≤ st3.heap.length := hrp.2.2.1
          · intro k m hkm
            have h2 : lookup (beginLoad st found).modules k = some m := by
              show lookup (st.modules ++ [(found, ⟨st.heap.length⟩)]) k = some m
              exact lookup_append_some hkm _
            exact hrp.2.2.2.1 k m h2
          · intro k hknone hksome
            cases h2 : lookup (beginLoad st found).modules k with
            | some m' =>
              have h2' : (lookup (st.modules ++ [(found, ⟨st.heap.length⟩)]) k).isSome := by
                show (lookup (beginLoad st found).modules k).isSome
                simp [h2]
              rcases lookup_append_isSome h2' with hs | he
              · rw [hknone] at hs; simp at hs
              · rw [he]; exact hfsome
            | none =>
              have := hrp.2.2.2.2 k h2 hksome
              rw [hbf] at this
              exact this

/-! ## Unreachability of the `CircularDependency` branch

`require` registers the instance record at the same moment it marks a name
as loading (`beginLoad`), and the candidate loop checks `modules` before
`moduleFactories` for each candidate.  Hence a re-entrant `require` for a
loading name is a cache hit on the under-construction record, and the
`loadingModules.has(found)` check can never fire: whenever every loading
name has an instance record, no `require` call returns
`CircularDependency`. -/

/-- Every name in the loading set has an instance record. -/
theorem runOpsWith_no_circular {req}
    (hreq : ∀ st n, LoadInv st →
      (∀ m, (req st n).1 ≠ .error (.circularDependency m)) ∧ LoadInv (req st n).2) :
    ∀ (ops : List FOp) (st : Registry) (eaddr : Nat), LoadInv st →
      (∀ m, (runOpsWith req st eaddr ops).1 ≠ .error (.circularDependency m)) ∧
      LoadInv (runOpsWith req st eaddr ops).2 := by
  intro ops
  induction ops with
  | nil =>
    intro st eaddr h
    exact ⟨fun m hc => by simp [runOpsWith] at hc, h⟩
  | cons op rest ih =>
    intro st eaddr h
    cases op with
    | setField f v =>
      simp only [runOpsWith]
      exact ih { st with heap := heapSet st.heap eaddr f v } eaddr h
    | fthrow msg =>
      exact ⟨fun m hc => by simp [runOpsWith] at hc, h⟩
    | freq n =>
      simp only [runOpsWith]
      rcases hr : req st n with ⟨r, st'⟩
      have hp := hreq st n h
      rw [hr] at hp
      cases r with
      | ok a => exact ih st' eaddr hp.2
      | error e =>
        refine ⟨fun m hc => ?_, hp.2⟩
        exact hp.1 m (by simpa using hc)
    | freqInto n f =>
      simp only [runOpsWith]
      rcases hr : req st n with ⟨r, st'⟩
      have hp := hreq st n h
      rw [hr] at hp
      cases r with
      | ok a =>
        exact ih { st' with heap := heapSet st'.heap eaddr f (Int.ofNat a) } eaddr hp.2
      | error e =>
        refine ⟨fun m hc => ?_, hp.2⟩
        exact hp.1 m (by simpa using hc)

theorem requireF_no_circular_aux :
    ∀ (fuel : Nat) (st : Registry) (n : Name), LoadInv st →
      (∀ m, (requireF fuel st n).1 ≠ .error (.circularDependency m)) ∧
      LoadInv (requireF fuel st n).2 := by
  intro fuel
  induction fuel with
  | zero =>
    intro st n h
    exact ⟨fun m hc => by simp [requireF] at hc, h⟩
  | succ fuel ih =>
    intro st n h
    simp only [requireF]
    cases hscan : scan st (candidatesOf n) with
    | hitModule a => exact ⟨fun m hc => by simp at hc, h⟩
    | notFound => exact ⟨fun m hc => by simp at hc, h⟩
    | hitFactory found =>
      obtain ⟨hfnone, hfsome⟩ := scan_hitFactory hscan
      have hmem : found ∉ st.loadingModules := by
        intro hmem
        have := h found hmem
        rw [hfnone] at this
        simp at this
      simp only [hmem, if_false]
      have hinv2 : LoadInv (beginLoad st found) := by
        intro k hk
        rcases List.mem_cons.mp hk with hk | hk
        · subst hk
          show (lookup (st.modules ++ [(k, ⟨st.heap.length⟩)]) k).isSome
          rw [lookup_append_none hfnone]
          simp [lookup]
        · have := h k hk
          cases hkl : lookup st.modules k with
          | none => rw [hkl] at this; simp at this
          | some m =>
            show (lookup (st.modules ++ [(found, ⟨st.heap.length⟩)]) k).isSome
            rw [lookup_append_some hkl]
            simp
      have hrun := runOpsWith_no_circular ih
        ((lookup st.moduleFactories found).getD default).ops (beginLoad st found)
        st.heap.length hinv2
      rcases hr : runOpsWith (requireF fuel) (beginLoad st found) st.heap.length
          ((lookup st.moduleFactories found).getD default).ops with ⟨r, st3⟩
      rw [hr] at hrun
      cases r with
      | ok u =>
        refine ⟨fun m hc => by simp at hc, ?_⟩
        show LoadInv (finishLoad
          (applyRet st3 found ((lookup st.moduleFactories found).getD default).ret) found)
        intro k hk
        have hk4 : k ∈ eraseName
            (applyRet st3 found
              ((lookup st.moduleFactories found).getD default).ret).loadingModules found := hk
        rw [applyRet_loading] at hk4
        have hk3 : k ∈ st3.loadingModules := mem_eraseName hk4
        show (lookup (applyRet st3 found
          ((lookup st.moduleFactories found).getD default).ret).modules k).isSome
        rw [applyRet_isSome]
        exact hrun.2 k hk3
      | error e =>
        refine ⟨fun m hc => hrun.1 m (by simpa using hc), ?_⟩
        show LoadInv (finishLoad st3 found)
        intro k hk
        have hk4 : k ∈ eraseName st3.loadingModules found := hk
        exact hrun.2 k (mem_eraseName hk4)

theorem lookup_exportsAddr {st : Registry} {f : Name}
    (h : (lookup st.modules f).isSome) :
    lookup st.modules f = some ⟨exportsAddr st f⟩ := by
  cases hm : lookup st.modules f with
  | none => rw [hm] at h; simp at h
  | some m =>
    cases m with
    | mk e => simp [exportsAddr, hm]

theorem getD_append_self {α : Type} (l : List α) (x : α) (d : α) :
    (l ++ [x]).getD l.length d = x := by
  induction l with
  | nil => rfl
  | cons e rest ih => simp only [List.cons_append, List.length_cons, List.getD_cons_succ]; exact ih

/-! ## Claim theorems -/

/-- **C1, counterexample.**  In the two-unit cycle (`A` requires `B`, `B`
requires `A` before `A`'s factory has finished), `require('A')` does *not*
raise `CircularDependency`: it returns successfully (exports address 2, the
object `A`'s factory returned).  The loading set ends empty, and `B`'s
exports recorded address 0 — the pre-seeded, still-under-construction
exports of `A` that the re-entrant `require('A')` returned as a cache hit
on the pre-registered instance record. -/
theorem cycle_require_returns_ok :
    (requireF 5 cycleReg "A".data).1 = .ok 2 ∧
    (requireF 5 cycleReg "A".data).2.loadingModules = [] ∧
    (requireF 5 cycleReg "A".data).2.heap.getD 1 [] = [("gotA".data, 0)] := by
  decide

/-- **C1, amended.**  Re-entering `require` for a name in the loading set
never signals a cycle: whenever every loading name has an instance record
(an invariant `beginLoad` establishes and `require` maintains), no
`require` call, at any depth, returns `CircularDependency`; the re-entrant
call is instead a cache hit on the under-construction record, so the cycle
terminates without error. -/
theorem require_never_circular (fuel : Nat) (st : Registry) (n : Name)
    (hinv : ∀ k, k ∈ st.loadingModules → (lookup st.modules k).isSome) :
    ∀ m, (requireF fuel st n).1 ≠ .error (.circularDependency m) :=
  (requireF_no_circular_aux fuel st n hinv).1

theorem require_never_circular_witness :
    (∀ k, k ∈ cycleReg.loadingModules → (lookup cycleReg.modules k).isSome) ∧
    ∀ m, (requireF 5 cycleReg "A".data).1 ≠ .error (.circularDependency m) :=
  ⟨fun k hk => absurd hk (List.not_mem_nil k),
   require_never_circular 5 cycleReg "A".data (fun k hk => absurd hk (List.not_mem_nil k))⟩

/-- **C3 (code bug).**  `__getCurrentModule__` does *not* "never raise":
its create-on-miss path calls `__createModule__`, which is defined nowhere
in the repository, so when no record exists under the recovered name — and
likewise on the final `'unknown'` fallback — the call throws
`ReferenceError: __createModule__ is not defined` instead of creating and
registering a fresh record.  Only the existing-record path returns
normally. -/
theorem getCurrentModule_raises_on_missing_record :
    __getCurrentModule__ emptyRegistry ["    at calculator:27:1".data] =
      .error ⟨"calculator".data⟩ ∧
    __getCurrentModule__ emptyRegistry [] = .error ⟨"unknown".data⟩ ∧
    __getCurrentModule__ calcCtxReg ["    at calculator:27:1".data] = .ok ⟨0⟩ := by
  decide

/-- **C4, counterexample.**  With `group/util` registered,
`require('../group/util.js')` throws `ModuleNotFound`: the first
replacement `/^\.\/?/` consumes only the first dot of `../`, leaving
`./group/util`, which matches nothing.  `require('util')` also throws: the
basename candidates are derived from the *request* only and are never
matched against registered path-qualified names. -/
theorem dotdot_request_not_found :
    (requireF 3 groupReg "../group/util.js".data).1 =
      .error (.moduleNotFound "../group/util.js".data
        ["../group/util.js".data, "./group/util".data, "./group/util.js".data,
         "util".data, "util.js".data]
        ["group/util".data]) ∧
    (requireF 3 groupReg "util".data).1 =
      .error (.moduleNotFound "util".data ["util".data, "util.js".data]
        ["group/util".data]) := by
  decide

/-- **C4, amended.**  For the registered unit `group/util`, the request
forms `'./group/util.js'`, `'group/util'` and `'group/util.js'` all resolve
to the same exports object (address 1) and leave the state untouched after
the first load; the forms `'../group/util.js'` and `'util'` are the ones
the code rejects (see the counterexample). -/
theorem normalized_requests_share_exports :
    requireF 3 groupReg "./group/util.js".data = (.ok 1, groupLoaded) ∧
    requireF 3 groupLoaded "group/util".data = (.ok 1, groupLoaded) ∧
    requireF 3 groupLoaded "group/util.js".data = (.ok 1, groupLoaded) ∧
    requireF 3 groupLoaded "./group/util.js".data = (.ok 1, groupLoaded) := by
  decide

/-- **C7.**  Registering a factory under a name that already has one is a
no-op: whatever way the name was resolved (explicit or detected), if the
factories map already binds it, `__defineModule__` returns the state
unchanged — the first factory stays in effect and every subsequent
`require` behaves exactly as before the duplicate registration. -/
theorem duplicate_registration_noop (stack : List Line) (st : Registry)
    (fac2 : Factory) (ex : Option Name) (n : Name) (f1 : Factory)
    (hres : resolveDefineName stack ex = .ok n)
    (hreg : lookup st.moduleFactories n = some f1) :
    __defineModule__ stack st fac2 ex = .ok st := by
  simp only [__defineModule__, hres]
  simp [hreg]

theorem duplicate_registration_noop_witness :
    __defineModule__ [] calcReg ⟨[], .obj []⟩ (some "calculator".data) = .ok calcReg :=
  duplicate_registration_noop [] calcReg ⟨[], .obj []⟩ (some "calculator".data)
    "calculator".data ⟨[], .obj [("add".data, 1)]⟩ (by decide) (by decide)

/-- **C10, counterexample.**  A `require` call *can* throw `ModuleNotFound`
and still mutate the registry: requiring `A`, whose factory requires the
unregistered `Z`, surfaces the nested `ModuleNotFound` while `A`'s
freshly registered (and now permanently cached) instance record, its heap
allocation and its invocation count all remain. -/
theorem nested_not_found_mutates_state :
    (requireF 3 nestReg "A".data).1 =
      .error (.moduleNotFound "Z".data ["Z".data, "Z.js".data] ["A".data]) ∧
    (requireF 3 nestReg "A".data).2 ≠ nestReg := by
  decide

/-- **C10, amended.**  The two throw sites themselves do occur before any
mutation: when the requested name's own resolution fails (`scan` finds no
candidate) the call returns `ModuleNotFound` with the state exactly as it
was, and when the selected factory is already loading the call returns
`CircularDependency` with the state exactly as it was.  Only errors
propagated from *nested* `require` calls inside a factory can leave
mutations behind (see the counterexample). -/
theorem toplevel_error_state_unchanged (fuel : Nat) (st : Registry) (n : Name) :
    (scan st (candidatesOf n) = .notFound →
      requireF (fuel + 1) st n =
        (.error (.moduleNotFound n (candidatesOf n) (keys st.moduleFactories)), st)) ∧
    (∀ f, scan st (candidatesOf n) = .hitFactory f → f ∈ st.loadingModules →
      requireF (fuel + 1) st n = (.error (.circularDependency f), st)) := by
  constructor
  · intro h
    simp only [requireF]
    rw [h]
  · intro f h hmem
    simp only [requireF]
    rw [h]
    simp [hmem]

theorem toplevel_error_state_unchanged_witness :
    requireF 1 emptyRegistry "missing".data =
      (.error (.moduleNotFound "missing".data ["missing".data, "missing.js".data] []),
        emptyRegistry) ∧
    requireF 1 loadingStuck "A".data =
      (.error (.circularDependency "A".data), loadingStuck) :=
  ⟨(toplevel_error_state_unchanged 0 emptyRegistry "missing".data).1 (by decide),
   (toplevel_error_state_unchanged 0 loadingStuck "A".data).2 "A".data
     (by decide) (by decide)⟩

/-- Every element of a list is an infix of its comma-join. -/
theorem mem_infix_joinComma {c : Name} {l : List Name} (h : c ∈ l) :
    c <:+: joinComma l := by
  induction l with
  | nil => simp at h
  | cons x rest ih =>
    rcases List.mem_cons.mp h with h | h
    · subst h
      cases rest with
      | nil => exact List.infix_refl _
      | cons y ys =>
        show c <:+: c ++ [',', ' '] ++ joinComma (y :: ys)
        exact ⟨[], [',', ' '] ++ joinComma (y :: ys), by simp⟩
    · cases rest with
      | nil => simp at h
      | cons y ys =>
        have hin := ih h
        show c <:+: x ++ [',', ' '] ++ joinComma (y :: ys)
        exact hin.trans (List.suffix_append _ _).isInfix

/-- **C8.**  When no candidate key matches a cached instance or a registered
factory, `require` throws `ModuleNotFound` carrying the original request,
the full candidate list tried, and all registered names at call time — and
each of those appears verbatim in the interpolated message string.  The
registry state is returned untouched. -/
theorem module_not_found_diagnostics (fuel : Nat) (st : Registry) (n : Name)
    (h : scan st (candidatesOf n) = .notFound) :
    requireF (fuel + 1) st n =
      (.error (.moduleNotFound n (candidatesOf n) (keys st.moduleFactories)), st) ∧
    n <:+: requireErrMessage
      (.moduleNotFound n (candidatesOf n) (keys st.moduleFactories)) ∧
    (∀ c ∈ candidatesOf n, c <:+: requireErrMessage
      (.moduleNotFound n (candidatesOf n) (keys st.moduleFactories))) ∧
    (∀ r ∈ keys st.moduleFactories, r <:+: requireErrMessage
      (.moduleNotFound n (candidatesOf n) (keys st.moduleFactories))) := by
  refine ⟨?_, ?_, ?_, ?_⟩
  · simp only [requireF]
    rw [h]
  · exact ⟨"Module not found: ".data,
      ". Tried: ".data ++ joinComma (candidatesOf n) ++
        ". Available modules: ".data ++ joinComma (keys st.moduleFactories),
      by simp [requireErrMessage, List.append_assoc]⟩
  · intro c hc
    refine (mem_infix_joinComma hc).trans ?_
    exact ⟨"Module not found: ".data ++ n ++ ". Tried: ".data,
      ". Available modules: ".data ++ joinComma (keys st.moduleFactories),
      by simp [requireErrMessage, List.append_assoc]⟩
  · intro r hr
    refine (mem_infix_joinComma hr).trans ?_
    exact (List.suffix_append _ _).isInfix

theorem module_not_found_diagnostics_witness :
    requireF 1 groupReg "nope".data =
      (.error (.moduleNotFound "nope".data (candidatesOf "nope".data)
        (keys groupReg.moduleFactories)), groupReg) ∧
    "nope".data <:+: requireErrMessage
      (.moduleNotFound "nope".data (candidatesOf "nope".data)
        (keys groupReg.moduleFactories)) :=
  ⟨(module_not_found_diagnostics 0 groupReg "nope".data (by decide)).1,
   (module_not_found_diagnostics 0 groupReg "nope".data (by decide)).2.1⟩

/-- A pattern applied through the usability filter only ever yields a
usable name. -/
theorem tryPattern_usable {m : List Char → Option Name} {line : List Char}
    {n : Name} (h : tryPattern m line = some n) : usable n = true := by
  unfold tryPattern at h
  cases hs : searchPos m line with
  | none => rw [hs] at h; cases h
  | some n' =>
    rw [hs] at h
    dsimp only at h
    by_cases hu : usable n' = true
    · rw [if_pos hu] at h
      cases h
      exact hu
    · rw [if_neg hu] at h
      cases h

/-- Any name the eight-pattern cascade accepts for a line is usable. -/
theorem tryLine_usable {t : List Char} {n : Name} (h : tryLine t = some n) :
    usable n = true := by
  unfold tryLine at h
  cases h1 : tryPattern matchAtPath t with
  | some n1 => rw [h1] at h; cases h; exact tryPattern_usable h1
  | none =>
  rw [h1] at h
  cases h2 : tryPattern matchAtPathSlash t with
  | some n2 => rw [h2] at h; cases h; exact tryPattern_usable h2
  | none =>
  rw [h2] at h
  cases h3 : tryPattern matchParen t with
  | some n3 => rw [h3] at h; cases h; exact tryPattern_usable h3
  | none =>
  rw [h3] at h
  cases h4 : tryPattern matchAtParen t with
  | some n4 => rw [h4] at h; cases h; exact tryPattern_usable h4
  | none =>
  rw [h4] at h
  cases h5 : tryPattern matchGs t with
  | some n5 => rw [h5] at h; cases h; exact tryPattern_usable h5
  | none =>
  rw [h5] at h
  cases h6 : tryPattern matchAtDot t with
  | some n6 => rw [h6] at h; cases h; exact tryPattern_usable h6
  | none =>
  rw [h6] at h
  cases h7 : tryPattern matchAtSimple t with
  | some n7 => rw [h7] at h; cases h; exact tryPattern_usable h7
  | none =>
  rw [h7] at h
  cases h8 : matchAnchoredSimple t with
  | some n8 =>
    rw [h8] at h
    dsimp only at h
    by_cases hu : usable n8 = true
    · rw [if_pos hu] at h
      cases h
      exact hu
    · rw [if_neg hu] at h
      cases h
  | none => rw [h8] at h; cases h

/-- The detection loop only ever returns usable names. -/
theorem detectLoop_usable : ∀ {stack : List Line} {n : Name},
    detectLoop stack = some n → usable n = true := by
  intro stack
  induction stack with
  | nil => intro n h; cases h
  | cons l rest ih =>
    intro n h
    simp only [detectLoop] at h
    by_cases hs : lineSkipped l = true
    · rw [if_pos hs] at h
      exact ih h
    · rw [if_neg hs] at h
      cases ht : tryLine (trim l) with
      | some n' => rw [ht] at h; cases h; exact tryLine_usable ht
      | none => rw [ht] at h; exact ih h

/-- **C9.**  `__detectModuleName__` never guesses: it is a function of the
backtrace alone (hence deterministic for a given backtrace shape); whenever
it fails it throws a `NameDetectionFailure` carrying the raw backtrace; and
whenever it succeeds the returned name is usable — nonempty, not `eval`,
not `anonymous`, not `__`-prefixed and not the reserved `CommonJS` — so it
never silently falls back to a generic name. -/
theorem detect_no_silent_fallback (stack : List Line) :
    (∀ e, __detectModuleName__ stack = .error e → e.stackTrace = stack) ∧
    (∀ n, __detectModuleName__ stack = .ok n → usable n = true) := by
  constructor
  · intro e he
    simp only [__detectModuleName__] at he
    cases hd : detectLoop stack with
    | some n => rw [hd] at he; cases he
    | none =>
      rw [hd] at he
      cases he
      rfl
  · intro n hn
    simp only [__detectModuleName__] at hn
    cases hd : detectLoop stack with
    | some n' =>
      rw [hd] at hn
      cases hn
      exact detectLoop_usable hd
    | none => rw [hd] at hn; cases hn

theorem detect_no_silent_fallback_witness :
    DetectError.stackTrace ⟨["    at eval:1:1".data]⟩ = ["    at eval:1:1".data] ∧
    usable "ai_tools/BaseConnector".data = true :=
  ⟨(detect_no_silent_fallback ["    at eval:1:1".data]).1
      ⟨["    at eval:1:1".data]⟩ (by decide),
   (detect_no_silent_fallback ["    at ai_tools/BaseConnector:27:1".data]).2
      "ai_tools/BaseConnector".data (by decide)⟩

/-- **C2.**  Once a `require` call for a name has returned successfully,
every further `require` for that name (at any fuel) returns the
referentially identical exports object — the same heap address — and
leaves the entire state, the ghost invocation counters included,
completely unchanged: the factory is never invoked again. -/
theorem require_idempotent_after_success (fuel fuel' : Nat) (st st' : Registry)
    (n : Name) (a : Nat) (h : requireF (fuel + 1) st n = (.ok a, st')) :
    requireF (fuel' + 1) st' n = (.ok a, st') := by
  have hpres := requireF_preserves (fuel + 1) st n
  rw [h] at hpres
  simp only [requireF] at h
  cases hscan : scan st (candidatesOf n) with
  | hitModule a0 =>
    rw [hscan] at h
    dsimp only at h
    simp only [Prod.mk.injEq, Except.ok.injEq] at h
    obtain ⟨ha, hst⟩ := h
    subst ha
    subst hst
    simp only [requireF]
    rw [hscan]
  | notFound =>
    rw [hscan] at h
    dsimp only at h
    simp at h
  | hitFactory found =>
    rw [hscan] at h
    dsimp only at h
    by_cases hmem : found ∈ st.loadingModules
    · rw [if_pos hmem] at h
      simp at h
    · rw [if_neg hmem] at h
      obtain ⟨hfnone, hfsome⟩ := scan_hitFactory hscan
      have hrp := runOpsWith_preserves (requireF_preserves fuel)
        ((lookup st.moduleFactories found).getD default).ops (beginLoad st found)
        st.heap.length
      rcases hrun : runOpsWith (requireF fuel) (beginLoad st found) st.heap.length
          ((lookup st.moduleFactories found).getD default).ops with ⟨r, st3⟩
      rw [hrun] at h
      rw [hrun] at hrp
      cases r with
      | error e =>
        dsimp only at h
        simp at h
      | ok u =>
        dsimp only at h
        simp only [Prod.mk.injEq, Except.ok.injEq] at h
        obtain ⟨ha, hst⟩ := h
        have h2 : lookup (beginLoad st found).modules found = some ⟨st.heap.length⟩ := by
          show lookup (st.modules ++ [(found, ⟨st.heap.length⟩)]) found = _
          rw [lookup_append_none hfnone]
          simp [lookup]
        have h3 : lookup st3.modules found = some ⟨st.heap.length⟩ :=
          hrp.2.2.2.1 found ⟨st.heap.length⟩ h2
        have h4some : (lookup (applyRet st3 found
            ((lookup st.moduleFactories found).getD default).ret).modules found).isSome := by
          rw [applyRet_isSome, h3]
          rfl
        have h5 := lookup_exportsAddr h4some
        have hm : lookup st'.modules found = some ⟨a⟩ := by
          rw [← hst]
          show lookup (applyRet st3 found
            ((lookup st.moduleFactories found).getD default).ret).modules found = some ⟨a⟩
          rw [h5, ha]
        have hscan' : scan st' (candidatesOf n) = .hitModule a :=
          scan_transfer hscan hpres.1 hpres.2.2.2.2 hm
        simp only [requireF]
        rw [hscan']

theorem require_idempotent_witness :
    requireF 2 calcReg "calculator".data = (.ok 1, calcLoaded) ∧
    requireF 1 calcLoaded "calculator".data = (.ok 1, calcLoaded) ∧
    lookup calcLoaded.invocations "calculator".data = some 1 :=
  ⟨by decide,
   require_idempotent_after_success 1 0 calcReg calcLoaded "calculator".data 1 (by decide),
   by decide⟩

/-- **C5.**  When a factory throws during `require`, the exception
propagates unchanged (the hypothesis matches exactly the error thrown in
the body), the name is removed from the loading set unconditionally (the
final loading set equals the caller's), and the partially initialized
record stays cached: a second `require` for the name succeeds, returning
the pre-seeded exports object (the address allocated at entry,
`st.heap.length`) in whatever partial state the failed factory left it,
with the state — invocation counters included — unchanged, so the factory
is not re-invoked. -/
theorem factory_throw_semantics (fuel fuel' : Nat) (st st' : Registry)
    (n msg : Name)
    (h : requireF (fuel + 1) st n = (.error (.factoryError msg), st')) :
    st'.loadingModules = st.loadingModules ∧
    requireF (fuel' + 1) st' n = (.ok st.heap.length, st') := by
  have hpres := requireF_preserves (fuel + 1) st n
  rw [h] at hpres
  refine ⟨hpres.2.1, ?_⟩
  simp only [requireF] at h
  cases hscan : scan st (candidatesOf n) with
  | hitModule a0 =>
    rw [hscan] at h
    dsimp only at h
    simp at h
  | notFound =>
    rw [hscan] at h
    dsimp only at h
    simp at h
  | hitFactory found =>
    rw [hscan] at h
    dsimp only at h
    by_cases hmem : found ∈ st.loadingModules
    · rw [if_pos hmem] at h
      simp at h
    · rw [if_neg hmem] at h
      obtain ⟨hfnone, hfsome⟩ := scan_hitFactory hscan
      have hrp := runOpsWith_preserves (requireF_preserves fuel)
        ((lookup st.moduleFactories found).getD default).ops (beginLoad st found)
        st.heap.length
      rcases hrun : runOpsWith (requireF fuel) (beginLoad st found) st.heap.length
          ((lookup st.moduleFactories found).getD default).ops with ⟨r, st3⟩
      rw [hrun] at h
      rw [hrun] at hrp
      cases r with
      | ok u =>
        dsimp only at h
        simp at h
      | error e =>
        dsimp only at h
        simp only [Prod.mk.injEq, Except.error.injEq] at h
        obtain ⟨he, hst⟩ := h
        have h2 : lookup (beginLoad st found).modules found = some ⟨st.heap.length⟩ := by
          show lookup (st.modules ++ [(found, ⟨st.heap.length⟩)]) found = _
          rw [lookup_append_none hfnone]
          simp [lookup]
        have h3 : lookup st3.modules found = some ⟨st.heap.length⟩ :=
          hrp.2.2.2.1 found ⟨st.heap.length⟩ h2
        have hm : lookup st'.modules found = some ⟨st.heap.length⟩ := by
          rw [← hst]
          exact h3
        have hscan' : scan st' (candidatesOf n) = .hitModule st.heap.length :=
          scan_transfer hscan hpres.1 hpres.2.2.2.2 hm
        simp only [requireF]
        rw [hscan']

theorem factory_throw_semantics_witness :
    requireF 2 boomReg "boom".data = (.error (.factoryError "kaboom".data), boomFailed) ∧
    boomFailed.loadingModules = boomReg.loadingModules ∧
    requireF 1 boomFailed "boom".data = (.ok 0, boomFailed) ∧
    boomFailed.heap.getD 0 [] = [("half".data, 1)] :=
  ⟨by decide,
   (factory_throw_semantics 1 0 boomReg boomFailed "boom".data "kaboom".data (by decide)).1,
   (factory_throw_semantics 1 0 boomReg boomFailed "boom".data "kaboom".data (by decide)).2,
   by decide⟩

/-- **C6.**  Replacement semantics of the factory's return value.  First
part: a factory returning the object literal `L` makes the freshly
allocated object (`st3.heap.length`, strictly beyond every address of the
pre-existing heap, in particular distinct from the pre-seeded exports at
`st.heap.length`) the module's exports and the value `require` returns,
and that cell holds exactly `L`.  Second part: a factory returning
`undefined` leaves the pre-seeded object (`st.heap.length`) as the final
exports returned by `require`, carrying whatever in-place mutations its
body performed. -/
theorem factory_return_semantics :
    (∀ (fuel : Nat) (st : Registry) (n found : Name) (ops : List FOp) (L : Obj)
        (u : Unit) (st3 : Registry),
      scan st (candidatesOf n) = .hitFactory found →
      found ∉ st.loadingModules →
      lookup st.moduleFactories found = some ⟨ops, .obj L⟩ →
      runOpsWith (requireF fuel) (beginLoad st found) st.heap.length ops =
        (.ok u, st3) →
      requireF (fuel + 1) st n =
        (.ok st3.heap.length, finishLoad (applyRet st3 found (.obj L)) found) ∧
      st.heap.length < st3.heap.length ∧
      (applyRet st3 found (.obj L)).heap.getD st3.heap.length [] = L) ∧
    (∀ (fuel : Nat) (st : Registry) (n found : Name) (ops : List FOp)
        (u : Unit) (st3 : Registry),
      scan st (candidatesOf n) = .hitFactory found →
      found ∉ st.loadingModules →
      lookup st.moduleFactories found = some ⟨ops, .undef⟩ →
      runOpsWith (requireF fuel) (beginLoad st found) st.heap.length ops =
        (.ok u, st3) →
      requireF (fuel + 1) st n = (.ok st.heap.length, finishLoad st3 found)) := by
  constructor
  · intro fuel st n found ops L u st3 hscan hmem hfac hrun
    obtain ⟨hfnone, _⟩ := scan_hitFactory hscan
    have hrp := runOpsWith_preserves (requireF_preserves fuel)
      ((lookup st.moduleFactories found).getD default).ops (beginLoad st found)
      st.heap.length
    rw [hfac] at hrp
    dsimp only [Option.getD] at hrp
    rw [hrun] at hrp
    have h2 : lookup (beginLoad st found).modules found = some ⟨st.heap.length⟩ := by
      show lookup (st.modules ++ [(found, ⟨st.heap.length⟩)]) found = _
      rw [lookup_append_none hfnone]
      simp [lookup]
    have h3 : lookup st3.modules found = some ⟨st.heap.length⟩ :=
      hrp.2.2.2.1 found ⟨st.heap.length⟩ h2
    have h4 : lookup (setExports st3.modules found st3.heap.length) found =
        some ⟨st3.heap.length⟩ :=
      lookup_setExports_self _ (by rw [h3]; rfl)
    refine ⟨?_, ?_, ?_⟩
    · simp only [requireF]
      rw [hscan]
      dsimp only
      rw [if_neg hmem, hfac]
      dsimp only [Option.getD]
      rw [hrun]
      dsimp only
      simp [exportsAddr, applyRet, h4]
    · have hle : (beginLoad st found).heap.length ≤ st3.heap.length := hrp.2.2.1
      have : st.heap.length + 1 ≤ st3.heap.length := by
        simpa [beginLoad] using hle
      exact Nat.lt_of_succ_le this
    · show (st3.heap ++ [L]).getD st3.heap.length [] = L
      exact getD_append_self _ _ _
  · intro fuel st n found ops u st3 hscan hmem hfac hrun
    obtain ⟨hfnone, _⟩ := scan_hitFactory hscan
    have hrp := runOpsWith_preserves (requireF_preserves fuel)
      ((lookup st.moduleFactories found).getD default).ops (beginLoad st found)
      st.heap.length
    rw [hfac] at hrp
    dsimp only [Option.getD] at hrp
    rw [hrun] at hrp
    have h2 : lookup (beginLoad st found).modules found = some ⟨st.heap.length⟩ := by
      show lookup (st.modules ++ [(found, ⟨st.heap.length⟩)]) found = _
      rw [lookup_append_none hfnone]
      simp [lookup]
    have h3 : lookup st3.modules found = some ⟨st.heap.length⟩ :=
      hrp.2.2.2.1 found ⟨st.heap.length⟩ h2
    simp only [requireF]
    rw [hscan]
    dsimp only
    rw [if_neg hmem, hfac]
    dsimp only [Option.getD]
    rw [hrun]
    dsimp only
    simp [exportsAddr, applyRet, h3]

theorem factory_return_semantics_witness :
    (requireF 1 replReg "r".data =
      (.ok replMid.heap.length,
        finishLoad (applyRet replMid "r".data (.obj [("x".data, 5)])) "r".data) ∧
     replReg.heap.length < replMid.heap.length ∧
     (applyRet replMid "r".data (.obj [("x".data, 5)])).heap.getD
        replMid.heap.length [] = [("x".data, 5)]) ∧
    requireF 1 mutReg "m".data = (.ok mutReg.heap.length, finishLoad mutMid "m".data) :=
  ⟨factory_return_semantics.1 0 replReg "r".data "r".data [] [("x".data, 5)] () replMid
     (by decide) (by decide) (by decide) (by decide),
   factory_return_semantics.2 0 mutReg "m".data "m".data [.setField "y".data 3] () mutMid
     (by decide) (by decide) (by decide) (by decide)⟩

end GasModules
